import Mathlib

/-!
Verification of the vscode-stylint language server core against its
natural-language specification.

The definitions below are a shallow embedding of the server source
(`server.ts` and helpers): JavaScript numbers that hold integral offsets,
positions and versions are modelled as `Int`; JavaScript `undefined`/`null`
is modelled with `Option`; JavaScript `Map` objects (insertion ordered,
unique keys) are modelled as association lists `List (String × α)` together
with `assocSet` / `assocDelete` / `List.lookup`; `Array.prototype.sort`
(stable in V8) is modelled as `List.insertionSort` over the translated
comparator.  External collaborators (the `vscode-languageserver` transport,
node path functions, the spawned linter process) appear as explicit
parameters of the functions that call them.
-/

namespace Stylint

/-- One auto-fix edit as reported by the linter: a half-open offset range
`[range[0], range[1])` and a replacement text (`StylintAutoFixEdit`). -/
structure StylintAutoFixEdit where
  rangeStart : Int
  rangeEnd : Int
  text : String
deriving DecidableEq, Repr

/-- A recorded candidate fix (`AutoFix` in the source). -/
structure AutoFix where
  label : String
  documentVersion : Int
  ruleId : String
  edit : StylintAutoFixEdit
deriving DecidableEq, Repr

/-- LSP position (0-based line/character). -/
structure DPosition where
  line : Int
  character : Int
deriving DecidableEq, Repr

/-- LSP range. -/
structure DRange where
  rangeStart : DPosition
  rangeEnd : DPosition
deriving DecidableEq, Repr

/-- The two diagnostic severities the server ever produces. -/
inductive DiagnosticSeverity where
  | Warning
  | Error
deriving DecidableEq, Repr

/-- LSP diagnostic as built by `makeDiagnostic`.  `code` is the rule id,
absent when the problem carried no rule. -/
structure Diagnostic where
  message : String
  severity : DiagnosticSeverity
  source : String
  range : DRange
  code : Option String
deriving DecidableEq, Repr

/-- One linter problem (`StylintProblem`): 1-based `line`/`column`,
optional 1-based `endLine`/`endColumn`, free-text `severity`, optional
rule id and optional fix. -/
structure StylintProblem where
  line : Int
  column : Int
  severity : String
  rule : Option String
  message : String
  endLine : Option Int
  endColumn : Option Int
  fix : Option StylintAutoFixEdit
deriving DecidableEq, Repr

/-- `convertSeverity`: `'Warning'` and `'Error'` map to themselves, any
other string falls through to `Error`. -/
def convertSeverity (severity : String) : DiagnosticSeverity :=
  match severity with
  | "Warning" => DiagnosticSeverity.Warning
  | "Error" => DiagnosticSeverity.Error
  | _ => DiagnosticSeverity.Error

/-- `makeDiagnostic`: convert a linter problem to an LSP diagnostic. -/
def makeDiagnostic (problem : StylintProblem) : Diagnostic :=
  let message :=
    match problem.rule with
    | some r => problem.message ++ " (" ++ r ++ ")"
    | none => problem.message
  let startLine := max 0 (problem.line - 1)
  let startChar := max 0 (problem.column - 1)
  let endLine :=
    match problem.endLine with
    | some el => max 0 (el - 1)
    | none => startLine
  let endChar :=
    match problem.endColumn with
    | some ec => max 0 (ec - 1)
    | none => startChar
  { message := message
    severity := convertSeverity problem.severity
    source := "stylint"
    range :=
      { rangeStart := { line := startLine, character := startChar }
        rangeEnd := { line := endLine, character := endChar } }
    code := problem.rule }

/-- `computeKey`: the diagnostic identity key
`[startLine,startChar,endLine,endChar]-code` (JavaScript string
interpolation renders an absent code as `undefined`). -/
def computeKey (diagnostic : Diagnostic) : String :=
  let r := diagnostic.range
  "[" ++ toString r.rangeStart.line ++ "," ++ toString r.rangeStart.character ++ ","
    ++ toString r.rangeEnd.line ++ "," ++ toString r.rangeEnd.character ++ "]-"
    ++ (match diagnostic.code with
        | some c => c
        | none => "undefined")

end Stylint

namespace Stylint
namespace Fixes

/-- `Fixes.overlaps`: the candidate `newEdit` overlaps `lastEdit` iff a last
edit exists and its end offset is strictly greater than the candidate's
start offset (`!!lastEdit && lastEdit.edit.range[1] > newEdit.edit.range[0]`). -/
def overlaps (lastEdit : Option AutoFix) (newEdit : AutoFix) : Bool :=
  match lastEdit with
  | none => false
  | some l => l.edit.rangeEnd > newEdit.edit.rangeStart

/-- The comparator passed to `result.sort` inside `Fixes.getAllSorted`:
difference of start offsets; at equal starts an end offset of `0` wins,
otherwise difference of end offsets. -/
def sortCompare (a b : AutoFix) : Int :=
  if a.edit.rangeStart - b.edit.rangeStart ≠ 0 then a.edit.rangeStart - b.edit.rangeStart
  else if a.edit.rangeEnd = 0 then -1
  else if b.edit.rangeEnd = 0 then 1
  else a.edit.rangeEnd - b.edit.rangeEnd

/-- `a` may stay before `b` under the `getAllSorted` comparator. -/
def sortLE (a b : AutoFix) : Prop := sortCompare a b ≤ 0

instance : DecidableRel sortLE := fun a b =>
  inferInstanceAs (Decidable (sortCompare a b ≤ 0))

/-- `Fixes.getAllSorted`: the stored entries (map values in insertion
order) sorted by the comparator.  V8's stable `Array.prototype.sort` is
modelled as a stable insertion sort over the comparator's `≤ 0` relation. -/
def getAllSorted (edits : List AutoFix) : List AutoFix :=
  List.insertionSort sortLE edits

/-- The loop of `Fixes.getOverlapFree` from index 1 on: drop entries that
overlap the last accepted entry, otherwise accept them and advance `last`. -/
def overlapScan (last : AutoFix) : List AutoFix → List AutoFix
  | [] => []
  | current :: rest =>
    if overlaps (some last) current then overlapScan last rest
    else current :: overlapScan current rest

/-- `Fixes.getOverlapFree`: greedy left-to-right scan over `getAllSorted`.
The source's `sorted.length <= 1` early return coincides with the general
path (scanning an empty tail accepts nothing), so both are the one match
below. -/
def getOverlapFree (edits : List AutoFix) : List AutoFix :=
  match getAllSorted edits with
  | [] => []
  | first :: rest => first :: overlapScan first rest

/-- The ordering the spec claims for `getAllSorted`: start ascending, ties
by end ascending except that end `0` sorts before any other end. -/
def claimOrder (a b : AutoFix) : Prop :=
  a.edit.rangeStart < b.edit.rangeStart ∨
    (a.edit.rangeStart = b.edit.rangeStart ∧
      (a.edit.rangeEnd = 0 ∨ (b.edit.rangeEnd ≠ 0 ∧ a.edit.rangeEnd ≤ b.edit.rangeEnd)))

theorem sortLE_iff_claimOrder (a b : AutoFix) : sortLE a b ↔ claimOrder a b := by
  unfold sortLE sortCompare claimOrder
  split_ifs <;> omega

instance : IsTotal AutoFix sortLE where
  total a b := by
    rw [sortLE_iff_claimOrder, sortLE_iff_claimOrder]
    unfold claimOrder
    omega

instance : IsTrans AutoFix sortLE where
  trans a b c hab hbc := by
    rw [sortLE_iff_claimOrder] at hab hbc ⊢
    unfold claimOrder at hab hbc ⊢
    omega

/-- Both ends of the claimed order imply start-offset monotonicity. -/
theorem claimOrder_start {a b : AutoFix} (h : claimOrder a b) :
    a.edit.rangeStart ≤ b.edit.rangeStart := by
  unfold claimOrder at h
  omega

theorem getAllSorted_perm (edits : List AutoFix) :
    (getAllSorted edits).Perm edits :=
  List.perm_insertionSort sortLE edits

theorem getAllSorted_pairwise (edits : List AutoFix) :
    List.Pairwise claimOrder (getAllSorted edits) :=
  (List.sorted_insertionSort sortLE edits).imp fun h => (sortLE_iff_claimOrder _ _).mp h

theorem overlaps_eq_false_iff (a b : AutoFix) :
    overlaps (some a) b = false ↔ a.edit.rangeEnd ≤ b.edit.rangeStart := by
  simp [overlaps]

theorem overlaps_eq_true_iff (a b : AutoFix) :
    overlaps (some a) b = true ↔ b.edit.rangeStart < a.edit.rangeEnd := by
  simp [overlaps]

theorem overlapScan_sublist (l : List AutoFix) :
    ∀ last, (overlapScan last l).Sublist l := by
  induction l with
  | nil => intro last; simp [overlapScan]
  | cons c rest ih =>
    intro last
    unfold overlapScan
    split
    · exact (ih last).trans (List.sublist_cons_self c rest)
    · exact (ih c).cons₂ c

theorem overlapScan_strong (l : List AutoFix) :
    ∀ last, List.Pairwise (fun a b => a.edit.rangeStart ≤ b.edit.rangeStart) l →
      (∀ x ∈ l, last.edit.rangeStart ≤ x.edit.rangeStart) →
      List.Pairwise (fun a b => overlaps (some a) b = false) (overlapScan last l) ∧
      (∀ x ∈ overlapScan last l, last.edit.rangeEnd ≤ x.edit.rangeStart) := by
  induction l with
  | nil => intro last _ _; simp [overlapScan]
  | cons c rest ih =>
    intro last hpw hub
    have hc : ∀ x ∈ rest, c.edit.rangeStart ≤ x.edit.rangeStart :=
      fun x hx => (List.pairwise_cons.mp hpw).1 x hx
    have hrest : List.Pairwise (fun a b => a.edit.rangeStart ≤ b.edit.rangeStart) rest :=
      (List.pairwise_cons.mp hpw).2
    unfold overlapScan
    split
    · -- `c` overlaps `last` and is dropped; `last` stays
      have hub' : ∀ x ∈ rest, last.edit.rangeStart ≤ x.edit.rangeStart :=
        fun x hx => hub x (List.mem_cons_of_mem c hx)
      exact ih last hrest hub'
    · -- `c` is accepted and becomes the new `last`
      rename_i hnov
      have hle : last.edit.rangeEnd ≤ c.edit.rangeStart := by
        have := (overlaps_eq_false_iff last c).mp (Bool.not_eq_true _ ▸ (by simpa using hnov))
        exact this
      obtain ⟨hpw', hend⟩ := ih c hrest hc
      refine ⟨List.pairwise_cons.mpr ⟨?_, hpw'⟩, ?_⟩
      · intro x hx
        exact (overlaps_eq_false_iff c x).mpr (hend x hx)
      · intro x hx
        rcases List.mem_cons.mp hx with h | h
        · exact h ▸ hle
        · have hxr : x ∈ rest := (overlapScan_sublist rest c).mem h
          exact le_trans hle (hc x hxr)

theorem overlapScan_maximal (l : List AutoFix) :
    ∀ last, ∀ x ∈ l, x ∉ overlapScan last l →
      ∃ y, (y = last ∨ y ∈ overlapScan last l) ∧ overlaps (some y) x = true := by
  induction l with
  | nil => intro last x hx; simp at hx
  | cons c rest ih =>
    intro last x hx hnmem
    by_cases hov : overlaps (some last) c = true
    · simp only [overlapScan, hov, if_true] at hnmem ⊢
      rcases List.mem_cons.mp hx with rfl | hxr
      · exact ⟨last, Or.inl rfl, hov⟩
      · rcases ih last x hxr hnmem with ⟨y, hy, hyov⟩
        exact ⟨y, hy, hyov⟩
    · simp only [overlapScan, hov, if_false] at hnmem ⊢
      rcases List.mem_cons.mp hx with rfl | hxr
      · exact absurd (List.mem_cons_self x _) hnmem
      · have hx' : x ∉ overlapScan c rest := fun h =>
          hnmem (List.mem_cons_of_mem c h)
        rcases ih c x hxr hx' with ⟨y, hy, hyov⟩
        refine ⟨y, Or.inr ?_, hyov⟩
        rcases hy with rfl | h
        · exact List.mem_cons_self y _
        · exact List.mem_cons_of_mem c h

end Fixes

/-- Sample fixes used to exercise the fix store on concrete inputs. -/
def sampleFixA : AutoFix :=
  { label := "Fix this semicolons problem", documentVersion := 1, ruleId := "semicolons",
    edit := { rangeStart := 0, rangeEnd := 5, text := "" } }

def sampleFixB : AutoFix :=
  { label := "Fix this colons problem", documentVersion := 1, ruleId := "colons",
    edit := { rangeStart := 3, rangeEnd := 6, text := ":" } }

def sampleFixC : AutoFix :=
  { label := "Fix this indents problem", documentVersion := 1, ruleId := "indents",
    edit := { rangeStart := 5, rangeEnd := 8, text := "  " } }

/-- C8: `getAllSorted` returns all stored entries (a permutation of the
store's values) ordered by start offset ascending, ties at equal start by
end offset ascending except that end offset `0` sorts first. -/
theorem C8_getAllSorted_order (edits : List AutoFix) :
    (Fixes.getAllSorted edits).Perm edits ∧
    List.Pairwise Fixes.claimOrder (Fixes.getAllSorted edits) :=
  ⟨Fixes.getAllSorted_perm edits, Fixes.getAllSorted_pairwise edits⟩

/-- C2: `getOverlapFree` is a subsequence of `getAllSorted`, pairwise
non-overlapping (every earlier accepted edit's end is at most every later
one's start), and left-greedy maximal: every dropped entry of
`getAllSorted` overlaps some accepted entry. -/
theorem C2_getOverlapFree_spec (edits : List AutoFix) :
    (Fixes.getOverlapFree edits).Sublist (Fixes.getAllSorted edits) ∧
    List.Pairwise (fun a b => Fixes.overlaps (some a) b = false)
      (Fixes.getOverlapFree edits) ∧
    (∀ x ∈ Fixes.getAllSorted edits, x ∉ Fixes.getOverlapFree edits →
      ∃ y ∈ Fixes.getOverlapFree edits, Fixes.overlaps (some y) x = true) := by
  have hpw : List.Pairwise (fun a b : AutoFix => a.edit.rangeStart ≤ b.edit.rangeStart)
      (Fixes.getAllSorted edits) :=
    (Fixes.getAllSorted_pairwise edits).imp fun h => Fixes.claimOrder_start h
  cases hs : Fixes.getAllSorted edits with
  | nil =>
    simp only [Fixes.getOverlapFree, hs]
    simp
  | cons first rest =>
    rw [hs] at hpw
    have hc : ∀ x ∈ rest, first.edit.rangeStart ≤ x.edit.rangeStart :=
      fun x hx => (List.pairwise_cons.mp hpw).1 x hx
    have hrest := (List.pairwise_cons.mp hpw).2
    obtain ⟨hpw', hend⟩ := Fixes.overlapScan_strong rest first hrest hc
    have hdef : Fixes.getOverlapFree edits = first :: Fixes.overlapScan first rest := by
      simp only [Fixes.getOverlapFree, hs]
    rw [hdef]
    refine ⟨?_, ?_, ?_⟩
    · exact (Fixes.overlapScan_sublist rest first).cons₂ first
    · exact List.pairwise_cons.mpr
        ⟨fun x hx => (Fixes.overlaps_eq_false_iff first x).mpr (hend x hx), hpw'⟩
    · intro x hx hnmem
      rcases List.mem_cons.mp hx with rfl | hxr
      · exact absurd (List.mem_cons_self _ _) hnmem
      · have hx' : x ∉ Fixes.overlapScan first rest := fun h =>
          hnmem (List.mem_cons_of_mem first h)
        rcases Fixes.overlapScan_maximal rest first x hxr hx' with ⟨y, hy, hyov⟩
        refine ⟨y, ?_, hyov⟩
        rcases hy with rfl | h
        · exact List.mem_cons_self _ _
        · exact List.mem_cons_of_mem first h

/-- Witness for C2 on a concrete store: of three entries the middle one is
dropped (its start 3 lies before the first entry's end 5) and it indeed
overlaps an accepted entry. -/
theorem C2_getOverlapFree_spec_witness :
    sampleFixB ∈ Fixes.getAllSorted [sampleFixA, sampleFixB, sampleFixC] ∧
    sampleFixB ∉ Fixes.getOverlapFree [sampleFixA, sampleFixB, sampleFixC] ∧
    ∃ y ∈ Fixes.getOverlapFree [sampleFixA, sampleFixB, sampleFixC],
      Fixes.overlaps (some y) sampleFixB = true :=
  ⟨by decide, by decide,
    (C2_getOverlapFree_spec [sampleFixA, sampleFixB, sampleFixC]).2.2 sampleFixB
      (by decide) (by decide)⟩

/-- A queued message (`Message<P, R> = Notification<P> | Request<P, R>`).
Params are abstracted to a `Nat` index into the params universe; a request
additionally carries whether its cancellation token is signaled at dequeue
time.  `documentVersion` is the version recorded at enqueue time
(`versionProvider ? versionProvider(params) : undefined`). -/
inductive QMessage where
  | request (method : String) (params : Nat) (documentVersion : Option Int)
      (tokenCancelled : Bool)
  | notification (method : String) (params : Nat) (documentVersion : Option Int)
deriving DecidableEq, Repr

def QMessage.method : QMessage → String
  | QMessage.request m _ _ _ => m
  | QMessage.notification m _ _ => m

def QMessage.params : QMessage → Nat
  | QMessage.request _ p _ _ => p
  | QMessage.notification _ p _ => p

def QMessage.documentVersion : QMessage → Option Int
  | QMessage.request _ _ v _ => v
  | QMessage.notification _ _ v => v

def QMessage.isRequest : QMessage → Bool
  | QMessage.request _ _ _ _ => true
  | QMessage.notification _ _ _ => false

/-- The queue together with its drain trigger: `timerArmed` is whether the
`setImmediate` handle (`this.timer`) is currently set. -/
structure QState where
  queue : List QMessage
  timerArmed : Bool
deriving DecidableEq, Repr

/-- `BufferedMessageQueue.trigger`: return if the timer is already armed or
the queue is empty, otherwise arm the timer. -/
def trigger (s : QState) : QState :=
  if s.timerArmed ∨ s.queue.isEmpty then s else { s with timerArmed := true }

/-- What one `processQueue` step did to the head message.  Invoking the
registered handler (and later settling a request's promise from the
handler's result) is abstracted to `handled`; `crashed` models the
unchecked `this.requestHandlers.get(...)`/`notificationHandlers.get(...)`
lookup being `undefined`. -/
inductive ProcessOutcome where
  | empty
  | rejected (message : String)
  | discarded
  | handled
  | crashed
deriving DecidableEq, Repr

/-- `BufferedMessageQueue.processQueue`.  The two handler tables map a
method name to its registration: `none` if unregistered, otherwise the
optional version provider registered with the handler.  The timer was
already cleared by the `setImmediate` callback before `processQueue` runs,
so the state's `timerArmed` is only changed by the final `this.trigger()`
— which the source reaches only on the handler-invoking path, all other
paths return early. -/
def processQueue (requestHandlers notificationHandlers :
    String → Option (Option (Nat → Option Int))) (s : QState) :
    ProcessOutcome × QState :=
  match s.queue with
  | [] => (ProcessOutcome.empty, s)
  | message :: rest =>
    let popped : QState := { queue := rest, timerArmed := s.timerArmed }
    match message with
    | QMessage.request method params documentVersion tokenCancelled =>
      if tokenCancelled then
        (ProcessOutcome.rejected "Request got cancelled", popped)
      else
        match requestHandlers method with
        | none => (ProcessOutcome.crashed, popped)
        | some versionProviderOpt =>
          match versionProviderOpt, documentVersion with
          | some versionProvider, some v =>
            if some v ≠ versionProvider params then
              (ProcessOutcome.rejected "Request got cancelled", popped)
            else
              (ProcessOutcome.handled, trigger popped)
          | _, _ => (ProcessOutcome.handled, trigger popped)
    | QMessage.notification method params documentVersion =>
      match notificationHandlers method with
      | none => (ProcessOutcome.crashed, popped)
      | some versionProviderOpt =>
        match versionProviderOpt, documentVersion with
        | some versionProvider, some v =>
          if some v ≠ versionProvider params then
            (ProcessOutcome.discarded, popped)
          else
            (ProcessOutcome.handled, trigger popped)
        | _, _ => (ProcessOutcome.handled, trigger popped)

theorem trigger_timerArmed_false (rest : List QMessage) :
    (trigger { queue := rest, timerArmed := false }).timerArmed = !rest.isEmpty := by
  unfold trigger
  cases rest <;> simp

theorem trigger_queue (q : List QMessage) (b : Bool) :
    (trigger { queue := q, timerArmed := b }).queue = q := by
  unfold trigger
  split <;> rfl

/-- C1: a dequeued message that recorded a document version, whose
registered version provider now yields a different version for its params,
never reaches its handler: a request is rejected with the cancellation
error and a notification is silently discarded.  Instantiated at
`stylint/validate` (whose version provider returns the document's current
version) this is exactly: a validation enqueued at version `vi` and
dequeued at version `vj ≠ vi` never triggers validation. -/
theorem C1_version_gate_drops_stale (requestHandlers notificationHandlers :
      String → Option (Option (Nat → Option Int)))
    (s : QState) (m : QMessage) (rest : List QMessage)
    (versionProvider : Nat → Option Int) (v : Int)
    (hq : s.queue = m :: rest)
    (hreg : cond m.isRequest requestHandlers notificationHandlers m.method
      = some (some versionProvider))
    (hv : m.documentVersion = some v)
    (hstale : versionProvider m.params ≠ some v) :
    (processQueue requestHandlers notificationHandlers s).1 ≠ ProcessOutcome.handled ∧
    (m.isRequest = true →
      (processQueue requestHandlers notificationHandlers s).1
        = ProcessOutcome.rejected "Request got cancelled") ∧
    (m.isRequest = false →
      (processQueue requestHandlers notificationHandlers s).1
        = ProcessOutcome.discarded) := by
  have hstale' : some v ≠ versionProvider m.params := Ne.symm hstale
  cases m with
  | request method params documentVersion tokenCancelled =>
    simp only [QMessage.isRequest, QMessage.method, QMessage.params,
      QMessage.documentVersion, cond_true] at hreg hv hstale'
    subst hv
    cases tokenCancelled
    · simp [processQueue, hq, hreg, hstale', QMessage.isRequest]
    · simp [processQueue, hq, QMessage.isRequest]
  | notification method params documentVersion =>
    simp only [QMessage.isRequest, QMessage.method, QMessage.params,
      QMessage.documentVersion, cond_false] at hreg hv hstale'
    subst hv
    simp [processQueue, hq, hreg, hstale', QMessage.isRequest]

/-- The version provider registered for `stylint/validate` in this
witness scenario: the document has reached version `2`. -/
def exValidateVersionProvider : Nat → Option Int := fun _ => some 2

/-- Notification handler table with only `stylint/validate` registered. -/
def exNotificationHandlers : String → Option (Option (Nat → Option Int)) :=
  fun method =>
    if method = "stylint/validate" then some (some exValidateVersionProvider) else none

/-- Witness for C1: a `stylint/validate` notification enqueued at version
`1` is discarded when the document has reached version `2`. -/
theorem C1_version_gate_drops_stale_witness :
    (processQueue (fun _ => none) exNotificationHandlers
      { queue := [QMessage.notification "stylint/validate" 0 (some 1)],
        timerArmed := false }).1 = ProcessOutcome.discarded :=
  (C1_version_gate_drops_stale (fun _ => none) exNotificationHandlers
    { queue := [QMessage.notification "stylint/validate" 0 (some 1)], timerArmed := false }
    (QMessage.notification "stylint/validate" 0 (some 1)) []
    exValidateVersionProvider 1 rfl
    (by simp [exNotificationHandlers, QMessage.isRequest, QMessage.method])
    rfl (by decide)).2.2 rfl

/-- Counterexample to C3 as stated: dequeuing a request whose cancellation
token is already signaled leaves a non-empty queue with the drain trigger
NOT re-armed — the early `return` in `processQueue` skips the final
`this.trigger()`. -/
theorem C3_counterexample :
    (processQueue (fun _ => none) (fun _ => none)
      { queue := [QMessage.request "textDocument/codeAction" 0 none true,
                  QMessage.notification "stylint/validate" 0 none],
        timerArmed := false }).1
      = ProcessOutcome.rejected "Request got cancelled" ∧
    (processQueue (fun _ => none) (fun _ => none)
      { queue := [QMessage.request "textDocument/codeAction" 0 none true,
                  QMessage.notification "stylint/validate" 0 none],
        timerArmed := false }).2.queue ≠ [] ∧
    (processQueue (fun _ => none) (fun _ => none)
      { queue := [QMessage.request "textDocument/codeAction" 0 none true,
                  QMessage.notification "stylint/validate" 0 none],
        timerArmed := false }).2.timerArmed = false := by
  refine ⟨rfl, ?_, rfl⟩
  decide

/-- C3 as amended: after one `processQueue` step (entered with the timer
cleared, as the `setImmediate` callback does), the drain trigger is armed
iff the head message was actually dispatched to its handler and the queue
is still non-empty; every early-exit path (already-cancelled request,
stale request, stale notification, missing handler) leaves the trigger
un-armed even when messages remain queued. -/
theorem C3_trigger_rearm_only_on_dispatch (requestHandlers notificationHandlers :
      String → Option (Option (Nat → Option Int)))
    (s : QState) (h : s.timerArmed = false) :
    (processQueue requestHandlers notificationHandlers s).2.timerArmed = true ↔
      ((processQueue requestHandlers notificationHandlers s).1 = ProcessOutcome.handled ∧
        (processQueue requestHandlers notificationHandlers s).2.queue ≠ []) := by
  unfold processQueue
  cases hq : s.queue with
  | nil => simp [h]
  | cons m rest =>
    cases m with
    | request method params documentVersion tokenCancelled =>
      cases tokenCancelled
      · cases hr : requestHandlers method with
        | none => simp [h, hr]
        | some versionProviderOpt =>
          cases versionProviderOpt with
          | none => simp [h, hr, trigger_timerArmed_false, trigger_queue, List.isEmpty_iff]
          | some versionProvider =>
            cases documentVersion with
            | none => simp [h, hr, trigger_timerArmed_false, trigger_queue, List.isEmpty_iff]
            | some v =>
              by_cases hc : some v = versionProvider params
              · simp [h, hr, hc, trigger_timerArmed_false, trigger_queue, List.isEmpty_iff]
              · simp [h, hr, hc]
      · simp [h]
    | notification method params documentVersion =>
      cases hr : notificationHandlers method with
      | none => simp [h, hr]
      | some versionProviderOpt =>
        cases versionProviderOpt with
        | none => simp [h, hr, trigger_timerArmed_false, trigger_queue, List.isEmpty_iff]
        | some versionProvider =>
          cases documentVersion with
          | none => simp [h, hr, trigger_timerArmed_false, trigger_queue, List.isEmpty_iff]
          | some v =>
            by_cases hc : some v = versionProvider params
            · simp [h, hr, hc, trigger_timerArmed_false, trigger_queue, List.isEmpty_iff]
            · simp [h, hr, hc]

/-- Witness for the amended C3: a dispatched notification followed by a
remaining message re-arms the trigger. -/
theorem C3_trigger_rearm_only_on_dispatch_witness :
    (processQueue (fun _ => none) exNotificationHandlers
      { queue := [QMessage.notification "stylint/validate" 0 none,
                  QMessage.notification "stylint/validate" 1 none],
        timerArmed := false }).2.timerArmed = true :=
  (C3_trigger_rearm_only_on_dispatch (fun _ => none) exNotificationHandlers
    { queue := [QMessage.notification "stylint/validate" 0 none,
                QMessage.notification "stylint/validate" 1 none],
      timerArmed := false } rfl).mpr ⟨by decide, by decide⟩

/-- JS `Map.set`: overwrite the value at an existing key in place, else
append at the end (JS maps preserve insertion order). -/
def assocSet (key : String) (value : α) : List (String × α) → List (String × α)
  | [] => [(key, value)]
  | (k, v) :: rest =>
    if k = key then (key, value) :: rest else (k, v) :: assocSet key value rest

/-- JS `Map.delete`: remove the entry for a key. -/
def assocDelete (key : String) (l : List (String × α)) : List (String × α) :=
  l.filter (fun p => p.1 ≠ key)

/-- `Fixes.getScoped`: for each supplied diagnostic, in input order, look up
its identity key in the store and keep the hits. -/
def Fixes.getScoped (edits : List (String × AutoFix)) (diagnostics : List Diagnostic) :
    List AutoFix :=
  diagnostics.filterMap (fun d => edits.lookup (computeKey d))

/-- What the `CodeActionRequest` handler produces, reduced to the data the
claims are about: how many single-fix actions were pushed, whether a
"fix all same-rule" action was offered (with the rule and the edits it
covers), and whether a "fix all" action was offered (with the edits it
covers). -/
structure CodeActionsResult where
  singleFixCount : Nat
  sameRuleFixes : Option (Option String × List AutoFix)
  allFixes : Option (List AutoFix)
deriving DecidableEq, Repr

/-- The `same` accumulator step of the handler's loop over
`fixes.getAllSorted()`: accept the entry when its rule equals the `ruleId`
variable (the last scoped fix's rule) and it does not overlap the last
accepted `same` entry. -/
def sameStep (ruleId : Option String) (same : List AutoFix) (editInfo : AutoFix) :
    List AutoFix :=
  if some editInfo.ruleId = ruleId ∧ ¬ Fixes.overlaps same.getLast? editInfo
  then same ++ [editInfo] else same

/-- The `all` accumulator step of the same loop. -/
def allStep (all : List AutoFix) (editInfo : AutoFix) : List AutoFix :=
  if ¬ Fixes.overlaps all.getLast? editInfo then all ++ [editInfo] else all

/-- A left-greedy overlap filter expressed as a fold; used to characterize
the handler's accumulators. -/
def greedyAppend (acc : List AutoFix) (editInfo : AutoFix) : List AutoFix :=
  if Fixes.overlaps acc.getLast? editInfo then acc else acc ++ [editInfo]

def greedyLoop (l : List AutoFix) : List AutoFix := l.foldl greedyAppend []

/-- The `CodeActionRequest` handler: no stored edits for the URI (or an
empty store) yields nothing; otherwise one single-fix action per scoped
fix, with the `ruleId` variable ending up as the LAST scoped fix's rule,
and — when at least one single-fix action was pushed — the `same`/`all`
accumulators computed in one pass over `getAllSorted`, each exposed as a
bulk action only when it has more than one entry. -/
def onCodeAction (edits : List (String × AutoFix)) (diagnostics : List Diagnostic) :
    CodeActionsResult :=
  if edits.isEmpty then { singleFixCount := 0, sameRuleFixes := none, allFixes := none }
  else
    let scopedFixes := Fixes.getScoped edits diagnostics
    let ruleId : Option String := scopedFixes.getLast?.map AutoFix.ruleId
    if scopedFixes.length > 0 then
      let folded := (Fixes.getAllSorted (edits.map Prod.snd)).foldl
        (fun p editInfo => (sameStep ruleId p.1 editInfo, allStep p.2 editInfo)) ([], [])
      { singleFixCount := scopedFixes.length
        sameRuleFixes := if folded.1.length > 1 then some (ruleId, folded.1) else none
        allFixes := if folded.2.length > 1 then some folded.2 else none }
    else { singleFixCount := 0, sameRuleFixes := none, allFixes := none }

/-- The subset of `getAllSorted` sharing a given rule id, greedily
overlap-filtered on its own — the set the spec says the same-rule bulk
action covers. -/
def sameRuleSubsetOf (edits : List (String × AutoFix)) (ruleId : Option String) :
    List AutoFix :=
  greedyLoop ((Fixes.getAllSorted (edits.map Prod.snd)).filter
    (fun e => some e.ruleId = ruleId))

theorem foldl_pair_split (l : List AutoFix) (r : Option String) :
    ∀ p : List AutoFix × List AutoFix,
      l.foldl (fun p editInfo => (sameStep r p.1 editInfo, allStep p.2 editInfo)) p
        = (l.foldl (sameStep r) p.1, l.foldl (allStep) p.2) := by
  induction l with
  | nil => intro p; rfl
  | cons e t ih => intro p; exact ih (sameStep r p.1 e, allStep p.2 e)

theorem allStep_eq_greedyAppend (acc : List AutoFix) (e : AutoFix) :
    allStep acc e = greedyAppend acc e := by
  unfold allStep greedyAppend
  by_cases h : Fixes.overlaps acc.getLast? e = true <;> simp [h]

theorem foldl_allStep_eq (l : List AutoFix) :
    ∀ acc, l.foldl allStep acc = l.foldl greedyAppend acc := by
  induction l with
  | nil => intro acc; rfl
  | cons e t ih => intro acc; rw [List.foldl_cons, List.foldl_cons,
      allStep_eq_greedyAppend, ih]

theorem foldl_sameStep_eq (r : Option String) (l : List AutoFix) :
    ∀ acc, l.foldl (sameStep r) acc
      = (l.filter (fun e => some e.ruleId = r)).foldl greedyAppend acc := by
  induction l with
  | nil => intro acc; rfl
  | cons e t ih =>
    intro acc
    by_cases hr : some e.ruleId = r
    · rw [List.foldl_cons]
      have : sameStep r acc e = greedyAppend acc e := by
        unfold sameStep greedyAppend
        by_cases h : Fixes.overlaps acc.getLast? e = true <;> simp [h, hr]
      rw [this, List.filter_cons_of_pos (by simpa using hr), List.foldl_cons, ih]
    · rw [List.foldl_cons]
      have : sameStep r acc e = acc := by
        unfold sameStep
        simp [hr]
      rw [this, List.filter_cons_of_neg (by simpa using hr), ih]

theorem foldl_greedyAppend_scan (l : List AutoFix) :
    ∀ (acc : List AutoFix) (last : AutoFix),
      l.foldl greedyAppend (acc ++ [last])
        = acc ++ [last] ++ Fixes.overlapScan last l := by
  induction l with
  | nil => intro acc last; simp [Fixes.overlapScan]
  | cons c t ih =>
    intro acc last
    rw [List.foldl_cons]
    by_cases h : Fixes.overlaps (some last) c = true
    · have hg : greedyAppend (acc ++ [last]) c = acc ++ [last] := by
        unfold greedyAppend
        simp [h]
      rw [hg, ih acc last]
      simp [Fixes.overlapScan, h]
    · have hg : greedyAppend (acc ++ [last]) c = (acc ++ [last]) ++ [c] := by
        unfold greedyAppend
        simp [h]
      rw [hg]
      have := ih (acc ++ [last]) c
      rw [this]
      simp [Fixes.overlapScan, h]

/-- The handler's `all` accumulator is exactly `Fixes.getOverlapFree`. -/
theorem greedyLoop_getAllSorted (edits : List AutoFix) :
    greedyLoop (Fixes.getAllSorted edits) = Fixes.getOverlapFree edits := by
  unfold greedyLoop Fixes.getOverlapFree
  cases hs : Fixes.getAllSorted edits with
  | nil => rfl
  | cons first rest =>
    rw [List.foldl_cons]
    have h0 : greedyAppend [] first = [] ++ [first] := by
      unfold greedyAppend
      simp [Fixes.overlaps]
    rw [h0, foldl_greedyAppend_scan rest [] first]
    simp

theorem getScoped_nil (diagnostics : List Diagnostic) :
    Fixes.getScoped ([] : List (String × AutoFix)) diagnostics = [] := by
  unfold Fixes.getScoped
  induction diagnostics with
  | nil => rfl
  | cons d t ih => simp [List.filterMap_cons, List.lookup]

theorem samePart (edits : List (String × AutoFix)) (r : Option String) :
    (Fixes.getAllSorted (edits.map Prod.snd)).foldl (sameStep r) []
      = sameRuleSubsetOf edits r := by
  rw [foldl_sameStep_eq]
  rfl

theorem allPart (edits : List (String × AutoFix)) :
    (Fixes.getAllSorted (edits.map Prod.snd)).foldl allStep []
      = Fixes.getOverlapFree (edits.map Prod.snd) := by
  rw [foldl_allStep_eq]
  exact greedyLoop_getAllSorted (edits.map Prod.snd)

/-- C5 as amended: when the code-action request matches at least one scoped
fix, the same-rule bulk action is offered exactly when the subset of
`getAllSorted` sharing the rule id of the LAST scoped fix, greedily
overlap-filtered on its own, has more than one entry, and it covers exactly
that subset; the "fix all" action is offered exactly when `getOverlapFree`
has more than one entry and covers exactly it. -/
theorem C5_bulk_actions (edits : List (String × AutoFix)) (diagnostics : List Diagnostic)
    (h : Fixes.getScoped edits diagnostics ≠ []) :
    (onCodeAction edits diagnostics).sameRuleFixes =
      (if (sameRuleSubsetOf edits
            ((Fixes.getScoped edits diagnostics).getLast?.map AutoFix.ruleId)).length > 1
       then some ((Fixes.getScoped edits diagnostics).getLast?.map AutoFix.ruleId,
          sameRuleSubsetOf edits
            ((Fixes.getScoped edits diagnostics).getLast?.map AutoFix.ruleId))
       else none) ∧
    (onCodeAction edits diagnostics).allFixes =
      (if (Fixes.getOverlapFree (edits.map Prod.snd)).length > 1
       then some (Fixes.getOverlapFree (edits.map Prod.snd)) else none) := by
  have hnil : edits ≠ [] := by
    intro he
    exact h (by rw [he]; exact getScoped_nil diagnostics)
  have hempty : edits.isEmpty = false := by
    cases edits
    · exact absurd rfl hnil
    · rfl
  have hlen : 0 < (Fixes.getScoped edits diagnostics).length :=
    List.length_pos.mpr h
  unfold onCodeAction
  simp only [hempty, Bool.false_eq_true, if_false, hlen, if_true,
    foldl_pair_split, samePart, allPart]
  refine ⟨?_, ?_⟩ <;> first | rfl | trivial

/-- Constructor for the concrete fixtures used in C5, resembling what
`recordCodeAction` stores. -/
def mkScopedFix (rule : String) (s e : Int) : AutoFix :=
  { label := "Fix this " ++ rule ++ " problem", documentVersion := 1, ruleId := rule,
    edit := { rangeStart := s, rangeEnd := e, text := "" } }

/-- The diagnostic corresponding to a fixture fix; its identity key is
determined by the range and rule. -/
def fixDiagnostic (f : AutoFix) : Diagnostic :=
  { message := "m (" ++ f.ruleId ++ ")", severity := DiagnosticSeverity.Error,
    source := "stylint",
    range := { rangeStart := { line := 0, character := f.edit.rangeStart }
               rangeEnd := { line := 0, character := f.edit.rangeEnd } }
    code := some f.ruleId }

/-- A fix store keyed like `codeActions`: by diagnostic identity. -/
def storeOf (fs : List AutoFix) : List (String × AutoFix) :=
  fs.map (fun f => (computeKey (fixDiagnostic f), f))

/-- Store with three non-overlapping `R` fixes and two `S` fixes. -/
def cexStore : List (String × AutoFix) :=
  storeOf [mkScopedFix "R" 0 1, mkScopedFix "R" 2 3, mkScopedFix "R" 4 5,
    mkScopedFix "S" 6 7, mkScopedFix "S" 8 9]

/-- A code-action request scoped to one `R` diagnostic followed by one `S`
diagnostic. -/
def cexDiagnostics : List Diagnostic :=
  [fixDiagnostic (mkScopedFix "R" 0 1), fixDiagnostic (mkScopedFix "S" 6 7)]

/-- Counterexample to C5 as stated: with scoped fixes `[R, S]` the first
scoped fix's rule is `R` and the `R` subset has 3 > 1 entries, yet the
offered same-rule bulk action does not cover the `R` subset — the handler's
`ruleId` variable ends up as the LAST scoped fix's rule `S`, so the action
covers the two `S` fixes. -/
theorem C5_counterexample :
    (Fixes.getScoped cexStore cexDiagnostics).head?.map AutoFix.ruleId = some "R" ∧
    (sameRuleSubsetOf cexStore (some "R")).length > 1 ∧
    (onCodeAction cexStore cexDiagnostics).sameRuleFixes ≠
      some (some "R", sameRuleSubsetOf cexStore (some "R")) ∧
    (onCodeAction cexStore cexDiagnostics).sameRuleFixes =
      some (some "S", [mkScopedFix "S" 6 7, mkScopedFix "S" 8 9]) := by
  refine ⟨by decide, by decide, by decide, by decide⟩

/-- Store with three non-overlapping `R` fixes and one `S` fix. -/
def scnStore : List (String × AutoFix) :=
  storeOf [mkScopedFix "R" 0 1, mkScopedFix "R" 2 3, mkScopedFix "R" 4 5,
    mkScopedFix "S" 6 7]

/-- A code-action request scoped to a single `R` diagnostic. -/
def scnDiagnostics : List Diagnostic := [fixDiagnostic (mkScopedFix "R" 0 1)]

/-- Witness for the amended C5, which is also the spec's bulk-fix scenario:
three non-overlapping `R` fixes plus one `S` fix with the request scoped to
an `R` diagnostic yield a fix-all-`R` action covering 3 edits and a fix-all
action covering all 4. -/
theorem C5_bulk_actions_witness :
    (onCodeAction scnStore scnDiagnostics).sameRuleFixes =
      some (some "R",
        [mkScopedFix "R" 0 1, mkScopedFix "R" 2 3, mkScopedFix "R" 4 5]) ∧
    (onCodeAction scnStore scnDiagnostics).allFixes =
      some [mkScopedFix "R" 0 1, mkScopedFix "R" 2 3, mkScopedFix "R" 4 5,
        mkScopedFix "S" 6 7] := by
  have h := C5_bulk_actions scnStore scnDiagnostics (by decide)
  exact ⟨h.1.trans (by decide), h.2.trans (by decide)⟩

/-- One entry of `params.changes` in the watched-files handler, carrying
the results of the external path helpers for its URI: `getFilePath`
(`none` for non-`file` schemes), `isUNC`, `path.dirname`, and whether the
probing `cli.validate(dirname + '/*.styl')` call throws synchronously
(the `catch` around it only sees synchronous throws). -/
structure FileChangeEvent where
  fsPath : Option String
  isUNC : Bool
  dirname : String
  validateThrows : Bool
deriving DecidableEq, Repr

/-- The three session-scoped error-dedup records, each mapping its key to
a library handle (abstracted to `Nat`): document URI for no-config,
config-file path for config-parse errors, plugin name for missing
modules. -/
structure ErrorDedupState where
  noConfigReported : List (String × Nat)
  configErrorReported : List (String × Nat)
  missingModuleReported : List (String × Nat)
deriving DecidableEq, Repr

/-- One iteration of the handler's `params.changes.forEach` body: non-file
and UNC paths are skipped; when the path has a directory and a config
error was recorded for that path, the directory is probed and — unless the
probe throws synchronously — the record for the path is deleted. -/
def handleWatchedChange (st : ErrorDedupState) (change : FileChangeEvent) :
    ErrorDedupState :=
  match change.fsPath with
  | none => st
  | some fsPath =>
    if change.isUNC then st
    else if change.dirname = "" then st
    else
      match st.configErrorReported.lookup fsPath with
      | none => st
      | some _ =>
        if change.validateThrows then st
        else { st with configErrorReported := assocDelete fsPath st.configErrorReported }

/-- The `DidChangeWatchedFilesNotification` handler: reassign
`noConfigReported` and `missingModuleReported` to fresh empty maps, run
the per-change pruning of `configErrorReported`, then re-enqueue a
validate notification for every open document at its current version
(`validateMany(documents.all())`); the second component is the list of
(uri, version) pairs enqueued. -/
def didChangeWatchedFiles (changes : List FileChangeEvent)
    (openDocuments : List (String × Int)) (st : ErrorDedupState) :
    ErrorDedupState × List (String × Int) :=
  (changes.foldl handleWatchedChange
    { st with noConfigReported := [], missingModuleReported := [] },
   openDocuments)

/-- A change event clears the config-error record for `key` iff it is a
file path equal to `key`, not UNC, with a nonempty directory, and the
probing call does not throw. -/
def changeClears (change : FileChangeEvent) (key : String) : Bool :=
  change.fsPath == some key && !change.isUNC && change.dirname != "" &&
    !change.validateThrows

/-- A live text document: URI and current version. -/
structure DocumentModel where
  uri : String
  version : Int
deriving DecidableEq, Repr

/-- `workspaceFolder` reduced to what `validate` consumes: whether parsing
its URI yields the `file` scheme, and the file-system path derived from
it. -/
structure WorkspaceFolderModel where
  isFileScheme : Bool
  fsPath : String
deriving DecidableEq, Repr

/-- A `stylint.workingDirectories` entry (`DirectoryItem`). -/
structure DirectoryItem where
  directory : String
  changeProcessCWD : Option Bool
deriving DecidableEq, Repr

/-- The slice of `TextDocumentSettings` that `validate` reads. -/
structure SettingsModel where
  autoFix : Bool
  workingDirectory : Option DirectoryItem
  workspaceFolder : Option WorkspaceFolderModel
deriving DecidableEq, Repr

/-- A per-file report from the linter (`StylintDocumentReport`); `messages`
is `none` when absent or not an array, and individual entries may be null. -/
structure StylintDocumentReport where
  filePath : String
  errorCount : Int
  warningCount : Int
  messages : Option (List (Option StylintProblem))
deriving DecidableEq, Repr

/-- The process-wide state `validate` touches: the working directory, the
`codeActions` fix store (uri → identity-keyed fixes) and the last
published diagnostics per URI. -/
structure ServerState where
  cwd : String
  codeActions : List (String × List (String × AutoFix))
  published : List (String × List Diagnostic)
deriving DecidableEq, Repr

/-- `recordCodeAction`: skip problems without a fix or with a missing or
empty (falsy) rule; otherwise store the fix under the diagnostic's
identity key, stamped with the document's current version. -/
def recordCodeAction (document : DocumentModel) (diagnostic : Diagnostic)
    (problem : StylintProblem) (edits : List (String × AutoFix)) :
    List (String × AutoFix) :=
  match problem.fix, problem.rule with
  | some fix, some rule =>
    if rule = "" then edits
    else assocSet (computeKey diagnostic)
      { label := "Fix this " ++ rule ++ " problem",
        documentVersion := document.version, ruleId := rule, edit := fix } edits
  | _, _ => edits

/-- The report-parsing loop of `validate`: an array with exactly one
element whose `messages` is an array contributes one diagnostic per
non-null problem plus — when auto-fix is enabled — a recorded fix per
eligible problem (accumulated left to right, as the source's in-place
`Map` writes do); any other report shape yields nothing. -/
def processReport (document : DocumentModel) (settings : SettingsModel)
    (report : List StylintDocumentReport) :
    List Diagnostic × List (String × AutoFix) :=
  match report with
  | [docReport] =>
    match docReport.messages with
    | some msgs =>
      msgs.foldl
        (fun acc problemOpt =>
          match problemOpt with
          | none => acc
          | some problem =>
            (acc.1 ++ [makeDiagnostic problem],
             if settings.autoFix
             then recordCodeAction document (makeDiagnostic problem) problem acc.2
             else acc.2))
        ([], [])
    | none => ([], [])
  | _ => ([], [])

/-- The `chdir` section at the top of `validate`'s `try` block: only for
file documents; a matching working-directory entry with `changeProcessCWD`
truthy wins, else the workspace folder's path when its URI is a file URI. -/
def chdirStep (filePath : Option String) (settings : SettingsModel)
    (s : ServerState) : ServerState :=
  match filePath with
  | none => s
  | some _ =>
    match settings.workingDirectory with
    | some wd =>
      match wd.changeProcessCWD with
      | some true => { s with cwd := wd.directory }
      | _ => s
    | none =>
      match settings.workspaceFolder with
      | some wf => if wf.isFileScheme then { s with cwd := wf.fsPath } else s
      | none => s

/-- The `finally` block of `validate`: restore the working directory
captured on entry when it changed. -/
def restoreCwd (cwd : String) (s : ServerState) : ServerState :=
  if cwd ≠ s.cwd then { s with cwd := cwd } else s

/-- `validate`: capture the cwd, optionally chdir, delete the document's
stored fixes, invoke the linter (its outcome is the `linterResult`
parameter), on success parse the report into diagnostics and a fresh fix
map (the URI gets a store entry only if some fix was recorded — the source
creates the inner map lazily on the first `recordCodeAction`) and publish
when requested; the `finally` restore of the cwd runs on both outcomes. -/
def validateRun (document : DocumentModel) (filePath : Option String)
    (settings : SettingsModel) (publishDiagnostics : Bool)
    (linterResult : Except String (List StylintDocumentReport))
    (s : ServerState) : Except String Unit × ServerState :=
  let cwd := s.cwd
  let s1 := chdirStep filePath settings s
  let s2 := { s1 with codeActions := assocDelete document.uri s1.codeActions }
  match linterResult with
  | Except.error e => (Except.error e, restoreCwd cwd s2)
  | Except.ok report =>
    let parsed := processReport document settings report
    let s3 :=
      if parsed.2.isEmpty then s2
      else { s2 with codeActions := assocSet document.uri parsed.2 s2.codeActions }
    let s4 :=
      if publishDiagnostics
      then { s3 with published := assocSet document.uri parsed.1 s3.published }
      else s3
    (Except.ok (), restoreCwd cwd s4)

/-- `TextEdit.replace(positionAt(start), positionAt(end), text || '')`,
with positions kept as raw offsets (`positionAt` is the document
collaborator's order-preserving offset-to-position map, and on a `String`
model `text || ''` is the identity). -/
structure TextEditModel where
  startOffset : Int
  endOffset : Int
  newText : String
deriving DecidableEq, Repr

def createTextEdit (editInfo : AutoFix) : TextEditModel :=
  { startOffset := editInfo.edit.rangeStart, endOffset := editInfo.edit.rangeEnd,
    newText := editInfo.edit.text }

/-- `VersionedTextDocumentIdentifier`. -/
structure VersionedIdentifier where
  uri : String
  version : Int
deriving DecidableEq, Repr

/-- `computeAllFixes`: `undefined` when the document is no longer open or
the identifier's version differs from the live version; otherwise, when
the store has a non-empty entry for the URI, the overlap-free fixes turned
into text edits; `undefined` otherwise. -/
def computeAllFixes (openDocuments : List (String × Int))
    (codeActions : List (String × List (String × AutoFix)))
    (identifier : VersionedIdentifier) : Option (List TextEditModel) :=
  match openDocuments.lookup identifier.uri with
  | none => none
  | some liveVersion =>
    if identifier.version ≠ liveVersion then none
    else
      match codeActions.lookup identifier.uri with
      | none => none
      | some edits =>
        if edits.isEmpty then none
        else some ((Fixes.getOverlapFree (edits.map Prod.snd)).map createTextEdit)

/-- What the `ExecuteCommandRequest` handler does on the
`stylint.applyAutoFix` branch. -/
inductive ExecuteCommandEffect where
  | noEdit
  | appliedEdit (edits : List TextEditModel)
deriving DecidableEq, Repr

/-- The `stylint.applyAutoFix` branch of the `ExecuteCommandRequest`
handler: build and apply a workspace change only when `computeAllFixes`
returned edits, otherwise return `{}` without touching the workspace. -/
def onExecuteAutoFix (openDocuments : List (String × Int))
    (codeActions : List (String × List (String × AutoFix)))
    (identifier : VersionedIdentifier) : ExecuteCommandEffect :=
  match computeAllFixes openDocuments codeActions identifier with
  | none => ExecuteCommandEffect.noEdit
  | some edits => ExecuteCommandEffect.appliedEdit edits

theorem lookup_assocDelete {α : Type} (key : String) (l : List (String × α)) :
    (assocDelete key l).lookup key = none := by
  induction l with
  | nil => rfl
  | cons p t ih =>
    obtain ⟨k, v⟩ := p
    unfold assocDelete at ih ⊢
    rw [List.filter_cons]
    by_cases h : k = key
    · rw [if_neg (by simp [h])]
      exact ih
    · rw [if_pos (by simp [h])]
      simp only [List.lookup]
      rw [show (key == k) = false by simp [Ne.symm h]]
      exact ih

theorem lookup_none_keys {α : Type} (key : String) (l : List (String × α))
    (h : l.lookup key = none) : ∀ p ∈ l, p.1 ≠ key := by
  induction l with
  | nil => intro p hp; simp at hp
  | cons q t ih =>
    rw [List.lookup_cons] at h
    by_cases hq : key = q.1
    · simp [hq] at h
    · intro p hp
      rcases List.mem_cons.mp hp with rfl | hp'
      · exact fun he => hq he.symm
      · have ht : t.lookup key = none := by
          have : (key == q.1) = false := by simp [hq]
          rwa [this] at h
        exact ih ht p hp'

theorem handleWatchedChange_fields (st : ErrorDedupState) (c : FileChangeEvent) :
    (handleWatchedChange st c).noConfigReported = st.noConfigReported ∧
    (handleWatchedChange st c).missingModuleReported = st.missingModuleReported := by
  unfold handleWatchedChange
  repeat' split
  all_goals exact ⟨rfl, rfl⟩

theorem handleWatchedChange_configError (st : ErrorDedupState) (c : FileChangeEvent) :
    (handleWatchedChange st c).configErrorReported
      = st.configErrorReported.filter (fun p => !changeClears c p.1) := by
  cases hf : c.fsPath with
  | none =>
    simp only [handleWatchedChange, hf]
    rw [Eq.comm, List.filter_eq_self]
    intro p _hp
    simp [changeClears, hf]
  | some fsPath =>
    simp only [handleWatchedChange, hf]
    by_cases hu : c.isUNC = true
    · rw [if_pos hu, Eq.comm, List.filter_eq_self]
      intro p _hp
      simp [changeClears, hu]
    · rw [if_neg hu]
      by_cases hd : c.dirname = ""
      · rw [if_pos hd, Eq.comm, List.filter_eq_self]
        intro p _hp
        simp [changeClears, hd]
      · rw [if_neg hd]
        cases hl : st.configErrorReported.lookup fsPath with
        | none =>
          rw [Eq.comm, List.filter_eq_self]
          intro p hp
          have hne := lookup_none_keys fsPath st.configErrorReported hl p hp
          simp [changeClears, hf, Ne.symm hne]
        | some lib =>
          by_cases ht : c.validateThrows = true
          · rw [if_pos ht, Eq.comm, List.filter_eq_self]
            intro p _hp
            simp [changeClears, ht]
          · rw [if_neg ht]
            show assocDelete fsPath st.configErrorReported = _
            unfold assocDelete
            apply List.filter_congr
            intro p _hp
            by_cases hp1 : p.1 = fsPath
            · simp [changeClears, hf, hu, hd, ht, hp1]
            · simp [changeClears, hf, hu, hd, ht, hp1, Ne.symm hp1]

theorem foldl_handleWatchedChange (changes : List FileChangeEvent) :
    ∀ st : ErrorDedupState,
      (changes.foldl handleWatchedChange st).noConfigReported = st.noConfigReported ∧
      (changes.foldl handleWatchedChange st).missingModuleReported
        = st.missingModuleReported ∧
      (changes.foldl handleWatchedChange st).configErrorReported
        = st.configErrorReported.filter
            (fun p => !changes.any (fun c => changeClears c p.1)) := by
  induction changes with
  | nil =>
    intro st
    refine ⟨rfl, rfl, ?_⟩
    simp
  | cons c t ih =>
    intro st
    rw [List.foldl_cons]
    obtain ⟨h1, h2, h3⟩ := ih (handleWatchedChange st c)
    obtain ⟨hf1, hf2⟩ := handleWatchedChange_fields st c
    refine ⟨h1.trans hf1, h2.trans hf2, ?_⟩
    rw [h3, handleWatchedChange_configError, List.filter_filter]
    apply List.filter_congr
    intro p _hp
    simp [Bool.not_or, Bool.and_comm]

/-- C6 as amended: the watched-files handler empties the no-config and
missing-module records wholesale, but the config-parse-error record is
only selectively pruned — an entry survives unless some change event names
exactly its path (file scheme, not UNC, nonempty directory, probe not
throwing); afterwards every open document is re-enqueued for validation at
its current version. -/
theorem C6_watched_files_dedup_reset (changes : List FileChangeEvent)
    (openDocuments : List (String × Int)) (st : ErrorDedupState) :
    (didChangeWatchedFiles changes openDocuments st).1.noConfigReported = [] ∧
    (didChangeWatchedFiles changes openDocuments st).1.missingModuleReported = [] ∧
    (didChangeWatchedFiles changes openDocuments st).1.configErrorReported
      = st.configErrorReported.filter
          (fun p => !changes.any (fun c => changeClears c p.1)) ∧
    (didChangeWatchedFiles changes openDocuments st).2 = openDocuments := by
  obtain ⟨h1, h2, h3⟩ := foldl_handleWatchedChange changes
    { st with noConfigReported := [], missingModuleReported := [] }
  exact ⟨h1, h2, h3, rfl⟩

/-- A dedup state with one entry in each record. -/
def cexDedupState : ErrorDedupState :=
  { noConfigReported := [("file:///w/a.styl", 0)],
    configErrorReported := [("/w/.stylintrc", 0)],
    missingModuleReported := [("stylint-plugin-x", 0)] }

/-- A watched-file change for a path with no recorded config error. -/
def cexChange : FileChangeEvent :=
  { fsPath := some "/w/other.json", isUNC := false, dirname := "/w",
    validateThrows := false }

/-- Counterexample to C6 as stated: handling a watched-files notification
empties the no-config and missing-module records but leaves the
config-parse-error record untouched when no change names its path — the
three sets are not all cleared wholesale. -/
theorem C6_counterexample :
    (didChangeWatchedFiles [cexChange] [("file:///w/a.styl", 3)]
      cexDedupState).1.noConfigReported = [] ∧
    (didChangeWatchedFiles [cexChange] [("file:///w/a.styl", 3)]
      cexDedupState).1.missingModuleReported = [] ∧
    (didChangeWatchedFiles [cexChange] [("file:///w/a.styl", 3)]
      cexDedupState).1.configErrorReported = [("/w/.stylintrc", 0)] := by
  refine ⟨rfl, rfl, by decide⟩

theorem restoreCwd_cwd (c : String) (s : ServerState) : (restoreCwd c s).cwd = c := by
  unfold restoreCwd
  by_cases h : c = s.cwd
  · simp [h]
  · simp [h]

theorem restoreCwd_codeActions (c : String) (s : ServerState) :
    (restoreCwd c s).codeActions = s.codeActions := by
  unfold restoreCwd
  split <;> rfl

theorem restoreCwd_published (c : String) (s : ServerState) :
    (restoreCwd c s).published = s.published := by
  unfold restoreCwd
  split <;> rfl

theorem chdirStep_codeActions (f : Option String) (st : SettingsModel) (s : ServerState) :
    (chdirStep f st s).codeActions = s.codeActions := by
  unfold chdirStep
  repeat' split
  all_goals rfl

theorem chdirStep_published (f : Option String) (st : SettingsModel) (s : ServerState) :
    (chdirStep f st s).published = s.published := by
  unfold chdirStep
  repeat' split
  all_goals rfl

/-- C7: whatever `validate` does — chdir to a working-directory entry or
the workspace folder, linter resolving or rejecting — the process-wide
working directory after the call equals the one before it. -/
theorem C7_cwd_restored (document : DocumentModel) (filePath : Option String)
    (settings : SettingsModel) (publishDiagnostics : Bool)
    (linterResult : Except String (List StylintDocumentReport)) (s : ServerState) :
    ((validateRun document filePath settings publishDiagnostics
      linterResult s).2).cwd = s.cwd := by
  cases linterResult with
  | error e => simp [validateRun, restoreCwd_cwd]
  | ok report => simp [validateRun, restoreCwd_cwd]

/-- C10: every validation attempt deletes the document's stored fixes
before the linter runs, so when the linter invocation throws the attempt
ends with no fix entries recorded for the document, while the previously
published diagnostics are left untouched. -/
theorem C10_error_path_clears_fixes (document : DocumentModel) (filePath : Option String)
    (settings : SettingsModel) (publishDiagnostics : Bool) (e : String)
    (s : ServerState) :
    (validateRun document filePath settings publishDiagnostics
      (Except.error e) s).1 = Except.error e ∧
    ((validateRun document filePath settings publishDiagnostics
      (Except.error e) s).2).codeActions.lookup document.uri = none ∧
    ((validateRun document filePath settings publishDiagnostics
      (Except.error e) s).2).published = s.published := by
  refine ⟨rfl, ?_, ?_⟩
  · show (restoreCwd s.cwd _).codeActions.lookup document.uri = none
    rw [restoreCwd_codeActions]
    exact lookup_assocDelete document.uri _
  · show (restoreCwd s.cwd _).published = s.published
    rw [restoreCwd_published]
    show (chdirStep filePath settings s).published = s.published
    exact chdirStep_published filePath settings s

/-- C9: executing `stylint.applyAutoFix` with an identifier for a document
that is closed or whose version differs from the live version computes no
edits and returns the empty result without applying a workspace edit. -/
theorem C9_stale_autofix_noop (openDocuments : List (String × Int))
    (codeActions : List (String × List (String × AutoFix)))
    (identifier : VersionedIdentifier)
    (h : openDocuments.lookup identifier.uri = none ∨
      ∃ v, openDocuments.lookup identifier.uri = some v ∧ identifier.version ≠ v) :
    computeAllFixes openDocuments codeActions identifier = none ∧
    onExecuteAutoFix openDocuments codeActions identifier
      = ExecuteCommandEffect.noEdit := by
  have hc : computeAllFixes openDocuments codeActions identifier = none := by
    unfold computeAllFixes
    rcases h with h | ⟨v, hv, hne⟩
    · rw [h]
    · rw [hv]
      simp [hne]
  refine ⟨hc, ?_⟩
  unfold onExecuteAutoFix
  rw [hc]

/-- Witness for C9: an `applyAutoFix` referencing version 5 while the live
document is at version 6 — with a non-empty fix store for the URI — is a
no-op. -/
theorem C9_stale_autofix_noop_witness :
    computeAllFixes [("file:///w/a.styl", 6)] [("file:///w/a.styl", scnStore)]
      { uri := "file:///w/a.styl", version := 5 } = none ∧
    onExecuteAutoFix [("file:///w/a.styl", 6)] [("file:///w/a.styl", scnStore)]
      { uri := "file:///w/a.styl", version := 5 } = ExecuteCommandEffect.noEdit :=
  C9_stale_autofix_noop [("file:///w/a.styl", 6)] [("file:///w/a.styl", scnStore)]
    { uri := "file:///w/a.styl", version := 5 }
    (Or.inr ⟨6, by decide, by decide⟩)

/-- C4: `makeDiagnostic` clamps the 1-based start to a 0-based position,
uses `endLine`/`endColumn` the same way when both are present and falls
back to the start when both are absent, maps `'Warning'` to Warning and
everything else to Error, suffixes the message with the rule id in
parentheses when present, copies the rule id into `code`, and tags the
source as `stylint`. -/
theorem C4_makeDiagnostic_spec (p : StylintProblem) :
    (makeDiagnostic p).range.rangeStart =
      { line := max 0 (p.line - 1), character := max 0 (p.column - 1) } ∧
    (∀ el ec, p.endLine = some el → p.endColumn = some ec →
      (makeDiagnostic p).range.rangeEnd =
        { line := max 0 (el - 1), character := max 0 (ec - 1) }) ∧
    (p.endLine = none → p.endColumn = none →
      (makeDiagnostic p).range.rangeEnd = (makeDiagnostic p).range.rangeStart) ∧
    (p.severity = "Warning" → (makeDiagnostic p).severity = DiagnosticSeverity.Warning) ∧
    (p.severity = "Error" → (makeDiagnostic p).severity = DiagnosticSeverity.Error) ∧
    (p.severity ≠ "Warning" → p.severity ≠ "Error" →
      (makeDiagnostic p).severity = DiagnosticSeverity.Error) ∧
    (∀ r, p.rule = some r →
      (makeDiagnostic p).message = p.message ++ " (" ++ r ++ ")" ∧
      (makeDiagnostic p).code = some r) ∧
    (p.rule = none → (makeDiagnostic p).message = p.message) ∧
    (makeDiagnostic p).code = p.rule ∧
    (makeDiagnostic p).source = "stylint" := by
  refine ⟨rfl, ?_, ?_, ?_, ?_, ?_, ?_, ?_, rfl, rfl⟩
  · intro el ec hel hec
    simp [makeDiagnostic, hel, hec]
  · intro hel hec
    simp [makeDiagnostic, hel, hec]
  · intro h
    simp [makeDiagnostic, convertSeverity, h]
  · intro h
    simp [makeDiagnostic, convertSeverity, h]
  · intro h1 h2
    show convertSeverity p.severity = DiagnosticSeverity.Error
    unfold convertSeverity
    split <;> simp_all
  · intro r hr
    exact ⟨by simp [makeDiagnostic, hr], by simp [makeDiagnostic, hr]⟩
  · intro hr
    simp [makeDiagnostic, hr]

/-- Witness for C4 at a concrete problem: 1-based `line=1, column=1` with no
`endLine`/`endColumn` yields a zero-width range at `(0,0)`, severity
`Warning` maps to Warning and the message gets the rule suffix. -/
theorem C4_makeDiagnostic_spec_witness :
    (makeDiagnostic
        { line := 1, column := 1, severity := "Warning", rule := some "colons",
          message := "missing colon", endLine := none, endColumn := none,
          fix := none }).range.rangeStart = { line := 0, character := 0 } ∧
    (makeDiagnostic
        { line := 1, column := 1, severity := "Warning", rule := some "colons",
          message := "missing colon", endLine := none, endColumn := none,
          fix := none }).range.rangeEnd =
      (makeDiagnostic
        { line := 1, column := 1, severity := "Warning", rule := some "colons",
          message := "missing colon", endLine := none, endColumn := none,
          fix := none }).range.rangeStart ∧
    (makeDiagnostic
        { line := 1, column := 1, severity := "Warning", rule := some "colons",
          message := "missing colon", endLine := none, endColumn := none,
          fix := none }).severity = DiagnosticSeverity.Warning ∧
    (makeDiagnostic
        { line := 1, column := 1, severity := "Warning", rule := some "colons",
          message := "missing colon", endLine := none, endColumn := none,
          fix := none }).message = "missing colon (colons)" := by
  have h := C4_makeDiagnostic_spec
    { line := 1, column := 1, severity := "Warning", rule := some "colons",
      message := "missing colon", endLine := none, endColumn := none, fix := none }
  exact ⟨by
      have := h.1
      simpa using this,
    h.2.2.1 rfl rfl,
    h.2.2.2.1 rfl,
    (h.2.2.2.2.2.2.1 "colons" rfl).1⟩

end Stylint
